import Mathlib

/-!
Verification of the procedural media pipeline in `src/App.jsx`:
the prompt hasher, the prompt→parameter mapping, the WAV (PCM16)
encoder, the master gain envelope schedule, the A/V merge timers and
precondition, and the word-wrap routine.  JavaScript numbers are
embedded as `ℤ`/`ℕ`/`ℚ` with explicit 32-bit and 16-bit wrapping;
strings are lists of character codes (`List ℕ`) for the hasher and
lists of characters (`List Char`) for the word-wrapper.
-/

/-- JavaScript ToInt32, the coercion applied by `|0` and by the
result of the `<<` shift: wrap to a signed 32-bit two's-complement value. -/
def toInt32 (n : ℤ) : ℤ := (n + 2147483648) % 4294967296 - 2147483648

/-- Truncation toward zero: the ToIntegerOrInfinity conversion JavaScript
applies to a fractional number stored through `DataView.setInt16`. -/
def ratTrunc (q : ℚ) : ℤ := if q < 0 then ⌈q⌉ else ⌊q⌋

/-- One iteration of the `hashString` loop in `src/App.jsx`:
`hash = (hash << 5) - hash + str.charCodeAt(i); hash |= 0`.
The shift coerces its result to int32; the following subtraction and
addition are exact in doubles at these magnitudes; `|= 0` wraps again. -/
def hashStep (acc : ℤ) (code : ℕ) : ℤ :=
  toInt32 (toInt32 (acc * 32) - acc + code)

/-- `hashString` from `src/App.jsx`, over the string's UTF-16 code units:
fold `hashStep` from 0, then `Math.abs`. -/
def hashString (codes : List ℕ) : ℕ := (codes.foldl hashStep 0).natAbs

/-- UTF-16 code units of the seed suffix "detune" appended to the prompt
at line 82 of `src/App.jsx`. -/
def detuneSuffix : List ℕ := [100, 101, 116, 117, 110, 101]

/-- UTF-16 code units of the seed suffix "lfo" appended to the prompt
at line 111 of `src/App.jsx`. -/
def lfoSuffix : List ℕ := [108, 102, 111]

/-- `baseFreq = 110 + (hashString(prompt) % 220)` (line 81). -/
def baseFrequencyHz (prompt : List ℕ) : ℕ := 110 + hashString prompt % 220

/-- `detuneCents = (hashString(prompt + 'detune') % 200) - 100` (line 82). -/
def detuneCents (prompt : List ℕ) : ℤ :=
  ((hashString (prompt ++ detuneSuffix) % 200 : ℕ) : ℤ) - 100

/-- `lfo.frequency.value = 0.1 + (hashString(prompt + 'lfo') % 30) / 100`
(line 111). -/
def lfoRateHz (prompt : List ℕ) : ℚ :=
  1 / 10 + ((hashString (prompt ++ lfoSuffix) % 30 : ℕ) : ℚ) / 100

/-- The decoded sample buffer fed to `audioBufferToWavBlob`: channel count,
sample rate, frame count, and per-channel sample data (`getChannelData`). -/
structure AudioBufferModel where
  numberOfChannels : ℕ
  sampleRate : ℕ
  length : ℕ
  channelData : ℕ → ℕ → ℚ

/-- Little-endian bytes written by `DataView.setUint16` (low 16 bits of the
stored value). -/
def u16le (n : ℕ) : List ℕ := [n % 256, n / 256 % 256]

/-- Little-endian bytes written by `DataView.setUint32` (low 32 bits of the
stored value). -/
def u32le (n : ℕ) : List ℕ :=
  [n % 256, n / 256 % 256, n / 65536 % 256, n / 16777216 % 256]

/-- `Math.max(-1, Math.min(1, s))` from line 67 of `src/App.jsx`. -/
def clamp1 (s : ℚ) : ℚ := max (-1) (min 1 s)

/-- `s < 0 ? s * 0x8000 : s * 0x7fff` from line 68 of `src/App.jsx`. -/
def scaled16 (s : ℚ) : ℚ := if s < 0 then s * 32768 else s * 32767

/-- Little-endian bytes written by `DataView.setInt16` for an integer value:
the value's low 16 bits. -/
def i16le (v : ℤ) : List ℕ := u16le (v % 65536).toNat

/-- The two bytes `audioBufferToWavBlob` stores for one float sample:
clamp to [-1,1], scale by 32768 (negative) or 32767 (otherwise), then
`setInt16` truncates toward zero and keeps the low 16 bits. -/
def sampleBytes (s : ℚ) : List ℕ := i16le (ratTrunc (scaled16 (clamp1 s)))

/-- The interleaved sample sequence built at lines 58-64 of `src/App.jsx`:
`interleaved[i*numOfChan + ch] = channel[ch][i]`. -/
def interleaved (buf : AudioBufferModel) : List ℚ :=
  (List.range (buf.length * buf.numberOfChannels)).map fun j =>
    buf.channelData (j % buf.numberOfChannels) (j / buf.numberOfChannels)

/-- The 44-byte RIFF/WAVE header written at lines 42-55 of `src/App.jsx`. -/
def wavHeader (buf : AudioBufferModel) : List ℕ :=
  [82, 73, 70, 70] ++ u32le (36 + buf.length * (buf.numberOfChannels * 2)) ++
    [87, 65, 86, 69] ++ [102, 109, 116, 32] ++ u32le 16 ++ u16le 1 ++
    u16le buf.numberOfChannels ++ u32le buf.sampleRate ++
    u32le (buf.sampleRate * (buf.numberOfChannels * 2)) ++
    u16le (buf.numberOfChannels * 2) ++ u16le 16 ++ [100, 97, 116, 97] ++
    u32le (buf.length * (buf.numberOfChannels * 2))

/-- The full byte sequence of the Blob returned by `audioBufferToWavBlob`:
header followed by the PCM bytes of every interleaved sample. -/
def wavBytes (buf : AudioBufferModel) : List ℕ :=
  wavHeader buf ++ ((interleaved buf).map sampleBytes).flatten

/-- Read a little-endian 16-bit unsigned value at a byte offset. -/
def readU16At (bs : List ℕ) (off : ℕ) : ℕ :=
  bs.getD off 0 + 256 * bs.getD (off + 1) 0

/-- Read a little-endian 32-bit unsigned value at a byte offset. -/
def readU32At (bs : List ℕ) (off : ℕ) : ℕ :=
  bs.getD off 0 + 256 * bs.getD (off + 1) 0 + 65536 * bs.getD (off + 2) 0 +
    16777216 * bs.getD (off + 3) 0

/-- Reinterpret a 16-bit unsigned value as signed (two's complement). -/
def signed16 (m : ℕ) : ℤ := if m < 32768 then (m : ℤ) else (m : ℤ) - 65536

/-- Decode interleaved sample number `k` of a WAV byte sequence back to a
float, per the spec's round-trip reading: the little-endian int16 at byte
offset `44 + 2k`, divided by 32768 if negative and 32767 otherwise. -/
def decodeSampleAt (bs : List ℕ) (k : ℕ) : ℚ :=
  let v := signed16 (readU16At bs (44 + 2 * k))
  if v < 0 then (v : ℚ) / 32768 else (v : ℚ) / 32767

/-- The master gain envelope scheduled at lines 120-123 of `src/App.jsx`:
`setValueAtTime(0, 0)`, then `linearRampToValueAtTime` to 0.8 at t=1, to 0.6
at t=duration-1, and to 0 at t=duration, evaluated with the linear-ramp
automation semantics (value interpolates linearly toward each ramp target,
reaching it at the target time). -/
def masterGainEnvelope (d t : ℚ) : ℚ :=
  if t ≤ 0 then 0
  else if t ≤ 1 then 4 / 5 * t
  else if t ≤ d - 1 then 4 / 5 + (3 / 5 - 4 / 5) * (t - 1) / (d - 1 - 1)
  else if t ≤ d then 3 / 5 + (0 - 3 / 5) * (t - (d - 1)) / (d - (d - 1))
  else 0

/-- The fixed 50 ms delay before `src.start()` in `renderMergedAV`
(lines 374-376 of `src/App.jsx`). -/
def audioStartLeadMs : ℤ := 50

/-- The capture stop timer of `renderMergedAV` (lines 377-379):
`setTimeout(() => recorder.stop(), Math.ceil(duration * 1000) + 100)`,
in milliseconds after `recorder.start()`. -/
def stopTimerDelayMs (duration : ℚ) : ℤ := ⌈duration * 1000⌉ + 100

/-- Failure kinds surfaced by the merge path. -/
inductive MergeFailure where
  | preconditionFailure

/-- Count of sessions/resources started by the merge path: audio contexts
(line 274), canvas capture streams (line 292), and media recorders
(lines 296 and 371). -/
structure StartedResources where
  audioContexts : ℕ
  captureStreams : ℕ
  recorders : ℕ

/-- Model of `renderMergedAV` as far as the merge precondition is concerned:
with an audio blob present it proceeds, creating one audio context, one
capture stream and one recorder. -/
def renderMergedAV (audioBlob : List ℕ) :
    Except MergeFailure (List ℕ) × StartedResources :=
  (Except.ok audioBlob, ⟨1, 1, 1⟩)

/-- `mergeAndPreview` (lines 427-443 of `src/App.jsx`): with no previously
generated audio blob (`if (!audioBlob) return alert('Generate audio first.')`)
it fails immediately without calling `renderMergedAV`; otherwise it proceeds
into `renderMergedAV`. -/
def mergeAndPreview (audioBlob : Option (List ℕ)) :
    Except MergeFailure (List ℕ) × StartedResources :=
  match audioBlob with
  | none => (Except.error MergeFailure.preconditionFailure, ⟨0, 0, 0⟩)
  | some blob => renderMergedAV blob

/-- JavaScript `text.split(' ')` over the text's characters: split at every
single space; consecutive separators and boundary separators produce empty
words, and the empty text yields one empty word. -/
def splitSpace : List Char → List (List Char)
  | [] => [[]]
  | c :: rest =>
    match splitSpace rest with
    | w :: ws => if c = ' ' then [] :: w :: ws else (c :: w) :: ws
    | [] => [[c]]

/-- One iteration of the `for (let w of words)` loop in `wrapText`
(lines 253-262 of `src/App.jsx`), over the state (lines so far, current
line): `test = current ? current + ' ' + w : w`; if `test` measures wider
than `maxWidth` and `current` is nonempty, push `current` and start a new
line at `w`, else continue with `test`. -/
def wrapStep (measure : List Char → ℚ) (maxWidth : ℚ)
    (st : List (List Char) × List Char) (w : List Char) :
    List (List Char) × List Char :=
  let test := if st.2 = [] then w else st.2 ++ ' ' :: w
  if measure test > maxWidth ∧ st.2 ≠ [] then (st.1 ++ [st.2], w) else (st.1, test)

/-- `wrapText(text, maxWidth, context)` (lines 249-265 of `src/App.jsx`),
parametrized by the context's text measure `context.measureText(...).width`:
split on spaces, run the greedy loop, push the trailing nonempty current
line, and cap the result at 4 lines (`lines.slice(0, 4)`). -/
def wrapText (measure : List Char → ℚ) (text : List Char) (maxWidth : ℚ) :
    List (List Char) :=
  let words := splitSpace text
  let st := words.foldl (wrapStep measure maxWidth) ([], [])
  (if st.2 ≠ [] then st.1 ++ [st.2] else st.1).take 4

lemma toInt32_range (n : ℤ) : -2147483648 ≤ toInt32 n ∧ toInt32 n < 2147483648 := by
  unfold toInt32
  omega

lemma toInt32_mod_eq (n : ℤ) : toInt32 n % 4294967296 = n % 4294967296 := by
  unfold toInt32
  omega

lemma hashStep_eq_mul31 (acc : ℤ) (code : ℕ) :
    hashStep acc code = toInt32 (acc * 31 + code) := by
  have h1 := toInt32_mod_eq (acc * 32)
  unfold hashStep toInt32 at *
  omega

lemma foldl_hashStep_range (codes : List ℕ) :
    ∀ acc : ℤ, -2147483648 ≤ acc → acc < 2147483648 →
      -2147483648 ≤ codes.foldl hashStep acc ∧ codes.foldl hashStep acc < 2147483648 := by
  induction codes with
  | nil => intro acc h1 h2; exact ⟨h1, h2⟩
  | cons c cs ih =>
    intro acc h1 h2
    rw [List.foldl_cons]
    exact ih _ (toInt32_range _).1 (toInt32_range _).2

/-- C6: `hashString` is a total function that folds each character code
into a 32-bit signed accumulator via `acc = acc*31 + code` (computed as
`(acc<<5) - acc + code`), each step wrapped to 32-bit two's-complement,
returns the absolute value of the final accumulator, and its result is
a non-negative integer representable in 32 bits. -/
theorem hashString_mul31_abs_and_32bit (codes : List ℕ) :
    hashString codes =
      (codes.foldl (fun (acc : ℤ) (c : ℕ) => toInt32 (acc * 31 + (c : ℤ))) 0).natAbs ∧
      hashString codes < 4294967296 := by
  have hfun : hashStep = fun (acc : ℤ) (c : ℕ) => toInt32 (acc * 31 + (c : ℤ)) := by
    funext acc c
    exact hashStep_eq_mul31 acc c
  constructor
  · rw [hashString, hfun]
  · have h := foldl_hashStep_range codes 0 (by norm_num) (by norm_num)
    unfold hashString
    omega

/-- C3: for every prompt, the derived audio parameters lie in the stated
half-open ranges: `baseFrequencyHz ∈ [110, 330)`, `detuneCents ∈ [-100, 100)`,
`lfoRateHz ∈ [1/10, 2/5)`. -/
theorem audio_parameter_ranges (prompt : List ℕ) :
    110 ≤ baseFrequencyHz prompt ∧ baseFrequencyHz prompt < 330 ∧
      -100 ≤ detuneCents prompt ∧ detuneCents prompt < 100 ∧
      1 / 10 ≤ lfoRateHz prompt ∧ lfoRateHz prompt < 2 / 5 := by
  refine ⟨by unfold baseFrequencyHz; omega, by unfold baseFrequencyHz; omega,
    by unfold detuneCents; omega, by unfold detuneCents; omega, ?_, ?_⟩
  · unfold lfoRateHz
    have h : (0 : ℚ) ≤ ((hashString (prompt ++ lfoSuffix) % 30 : ℕ) : ℚ) := by positivity
    linarith
  · unfold lfoRateHz
    have h : ((hashString (prompt ++ lfoSuffix) % 30 : ℕ) : ℚ) ≤ 29 := by
      have : hashString (prompt ++ lfoSuffix) % 30 ≤ 29 := by omega
      exact_mod_cast this
    linarith

lemma sampleBytes_length (s : ℚ) : (sampleBytes s).length = 2 := by
  simp [sampleBytes, i16le, u16le]

lemma pcm_length (l : List ℚ) : ((l.map sampleBytes).flatten).length = 2 * l.length := by
  induction l with
  | nil => simp
  | cons x xs ih =>
    simp only [List.map_cons, List.flatten_cons, List.length_append, sampleBytes_length, ih,
      List.length_cons]
    ring

lemma interleaved_length (buf : AudioBufferModel) :
    (interleaved buf).length = buf.length * buf.numberOfChannels := by
  simp [interleaved]

lemma wavHeader_length (buf : AudioBufferModel) : (wavHeader buf).length = 44 := by
  simp [wavHeader, u32le, u16le]

/-- C1: the blob produced by `audioBufferToWavBlob` has byte length exactly
`44 + frames*channels*2`, and the little-endian 32-bit RIFF chunk-size field
at byte offset 4 equals `36 + frames*channels*2` (whenever that value fits
the 32-bit field, as it does for 2 channels at 44100 Hz for 8 seconds). -/
theorem wav_blob_length_and_riff_field (buf : AudioBufferModel)
    (h : 36 + buf.length * buf.numberOfChannels * 2 < 4294967296) :
    (wavBytes buf).length = 44 + buf.length * buf.numberOfChannels * 2 ∧
      readU32At (wavBytes buf) 4 = 36 + buf.length * buf.numberOfChannels * 2 := by
  constructor
  · rw [wavBytes, List.length_append, wavHeader_length, pcm_length, interleaved_length]
    ring
  · have hv : 36 + buf.length * buf.numberOfChannels * 2 =
        36 + buf.length * (buf.numberOfChannels * 2) := by ring
    rw [hv] at h ⊢
    have h4 : (4 : ℕ) < (wavHeader buf).length := by rw [wavHeader_length]; omega
    have h5 : (5 : ℕ) < (wavHeader buf).length := by rw [wavHeader_length]; omega
    have h6 : (6 : ℕ) < (wavHeader buf).length := by rw [wavHeader_length]; omega
    have h7 : (7 : ℕ) < (wavHeader buf).length := by rw [wavHeader_length]; omega
    unfold readU32At wavBytes
    rw [List.getD_append _ _ _ _ h4, List.getD_append _ _ _ _ h5,
      List.getD_append _ _ _ _ h6, List.getD_append _ _ _ _ h7]
    simp only [wavHeader, u32le, u16le, List.cons_append, List.nil_append]
    simp only [List.getD_cons_succ, List.getD_cons_zero]
    omega

/-- Witness for C1 at the spec's instance: a 2-channel, 44100 Hz, 8-second
buffer (352800 frames). -/
theorem wav_blob_length_and_riff_field_witness :
    (wavBytes ⟨2, 44100, 352800, fun _ _ => 0⟩).length = 44 + 8 * 44100 * 2 * 2 ∧
      readU32At (wavBytes ⟨2, 44100, 352800, fun _ _ => 0⟩) 4 = 36 + 8 * 44100 * 2 * 2 := by
  have h := wav_blob_length_and_riff_field ⟨2, 44100, 352800, fun _ _ => 0⟩ (by norm_num)
  norm_num at h ⊢
  exact h

lemma clamp1_mem (s : ℚ) : -1 ≤ clamp1 s ∧ clamp1 s ≤ 1 := by
  unfold clamp1
  constructor
  · exact le_max_left _ _
  · exact max_le (by norm_num) (min_le_left _ _)

lemma clamp1_eq_self {s : ℚ} (h1 : -1 ≤ s) (h2 : s ≤ 1) : clamp1 s = s := by
  unfold clamp1
  rw [min_eq_right h2, max_eq_right h1]

lemma trunc_scaled_range (s : ℚ) (h1 : -1 ≤ s) (h2 : s ≤ 1) :
    -32768 ≤ ratTrunc (scaled16 s) ∧ ratTrunc (scaled16 s) ≤ 32767 := by
  by_cases hs : s < 0
  · have hneg : s * 32768 < 0 := by nlinarith
    rw [scaled16, if_pos hs, ratTrunc, if_pos hneg]
    constructor
    · have hle : ((-32768 : ℚ)) ≤ s * 32768 := by nlinarith
      have hmono : ⌈((-32768 : ℚ))⌉ ≤ ⌈s * 32768⌉ := Int.ceil_le_ceil hle
      have hc : ⌈((-32768 : ℚ))⌉ = -32768 := by
        rw [show ((-32768 : ℚ)) = ((-32768 : ℤ) : ℚ) by norm_num, Int.ceil_intCast]
      omega
    · have : ⌈s * 32768⌉ ≤ 0 := Int.ceil_le.mpr (by push_cast; nlinarith)
      omega
  · push_neg at hs
    have hnn : ¬(s * 32767 < 0) := not_lt.mpr (by positivity)
    rw [scaled16, if_neg (not_lt.mpr hs), ratTrunc, if_neg hnn]
    constructor
    · have : (0 : ℤ) ≤ ⌊s * 32767⌋ := Int.floor_nonneg.mpr (by positivity)
      omega
    · have : (s * 32767 : ℚ) ≤ ((32767 : ℤ) : ℚ) := by push_cast; nlinarith
      calc ⌊s * 32767⌋ ≤ ⌊((32767 : ℤ) : ℚ)⌋ := Int.floor_le_floor this
        _ = 32767 := Int.floor_intCast _

lemma getD_pair_zero (a b : ℕ) : [a, b].getD 0 0 = a := rfl

lemma getD_pair_one (a b : ℕ) : [a, b].getD 1 0 = b := rfl

lemma signed16_readU16_i16le (v : ℤ) (hl : -32768 ≤ v) (hu : v ≤ 32767) :
    signed16 (readU16At (i16le v) 0) = v := by
  unfold readU16At i16le u16le
  simp only [Nat.zero_add, getD_pair_zero, getD_pair_one]
  unfold signed16
  split <;> omega

/-- C2 counterexample: at the sample `s = 1/2` the encoder stores the int16
value 16383 (truncation toward zero of 16383.5), while the claimed formula
`round(clamp(s,-1,1) * 32767)` yields 16384. -/
theorem sample_encoding_round_counterexample :
    signed16 (readU16At (sampleBytes (1 / 2)) 0) = 16383 ∧
      round (clamp1 (1 / 2) * 32767) = 16384 ∧
      signed16 (readU16At (sampleBytes (1 / 2)) 0) ≠ round (clamp1 (1 / 2) * 32767) := by
  have hc : clamp1 ((1 : ℚ) / 2) = 1 / 2 := clamp1_eq_self (by norm_num) (by norm_num)
  have hs : scaled16 ((1 : ℚ) / 2) = 32767 / 2 := by
    rw [scaled16, if_neg (by norm_num)]
    norm_num
  have ht : ratTrunc ((32767 : ℚ) / 2) = 16383 := by
    rw [ratTrunc, if_neg (by norm_num), Int.floor_eq_iff]
    norm_num
  have he : signed16 (readU16At (sampleBytes (1 / 2)) 0) = 16383 := by
    rw [sampleBytes, hc, hs, ht]
    exact signed16_readU16_i16le 16383 (by norm_num) (by norm_num)
  have hr : round (clamp1 (1 / 2) * 32767) = 16384 := by
    rw [hc, round_eq, Int.floor_eq_iff]
    norm_num
  exact ⟨he, hr, by rw [he, hr]; norm_num⟩

/-- C2 (amended): for every float sample `s`, the encoder writes the 16-bit
value `trunc(clamp(s,-1,1) * (clamped < 0 ? 32768 : 32767))` — truncated
toward zero by `setInt16` (not rounded to nearest) — and that value lies in
[-32768, 32767], so the 16-bit store never wraps. -/
theorem sample_encoding_truncated (s : ℚ) :
    signed16 (readU16At (sampleBytes s) 0) = ratTrunc (scaled16 (clamp1 s)) ∧
      -32768 ≤ ratTrunc (scaled16 (clamp1 s)) ∧ ratTrunc (scaled16 (clamp1 s)) ≤ 32767 := by
  have hm := clamp1_mem s
  have hr := trunc_scaled_range (clamp1 s) hm.1 hm.2
  exact ⟨by rw [sampleBytes]; exact signed16_readU16_i16le _ hr.1 hr.2, hr.1, hr.2⟩

lemma decode_val_close (s : ℚ) (h1 : -1 ≤ s) (h2 : s ≤ 1) :
    |(if ratTrunc (scaled16 s) < 0 then ((ratTrunc (scaled16 s) : ℤ) : ℚ) / 32768
      else ((ratTrunc (scaled16 s) : ℤ) : ℚ) / 32767) - s| ≤ 1 / 32767 := by
  by_cases hs : s < 0
  · have hneg : s * 32768 < 0 := by nlinarith
    rw [scaled16, if_pos hs, ratTrunc, if_pos hneg]
    have hc1 : s * 32768 ≤ (⌈s * 32768⌉ : ℚ) := Int.le_ceil _
    have hc2 : (⌈s * 32768⌉ : ℚ) < s * 32768 + 1 := Int.ceil_lt_add_one _
    by_cases ht : ⌈s * 32768⌉ < 0
    · rw [if_pos ht, abs_le]
      constructor <;> linarith
    · have ht0 : ⌈s * 32768⌉ ≤ 0 := Int.ceil_le.mpr (by push_cast; nlinarith)
      have hz : ⌈s * 32768⌉ = 0 := le_antisymm ht0 (not_lt.mp ht)
      rw [if_neg ht, hz]
      have hgt : -1 < s * 32768 := by
        have : ((⌈s * 32768⌉ : ℤ) : ℚ) < s * 32768 + 1 := Int.ceil_lt_add_one _
        rw [hz] at this
        push_cast at this
        linarith
      rw [abs_le]
      constructor <;> push_cast <;> [linarith; nlinarith]
  · push_neg at hs
    have hnn : ¬(s * 32767 < 0) := not_lt.mpr (by positivity)
    rw [scaled16, if_neg (not_lt.mpr hs), ratTrunc, if_neg hnn]
    have hf1 : (⌊s * 32767⌋ : ℚ) ≤ s * 32767 := Int.floor_le _
    have hf2 : s * 32767 < (⌊s * 32767⌋ : ℚ) + 1 := Int.lt_floor_add_one _
    have ht : ¬(⌊s * 32767⌋ < 0) := not_lt.mpr (Int.floor_nonneg.mpr (by positivity))
    rw [if_neg ht, abs_le]
    constructor <;> linarith

lemma pcm_getD (l : List ℚ) :
    ∀ k r : ℕ, k < l.length → r < 2 →
      ((l.map sampleBytes).flatten).getD (2 * k + r) 0 = (sampleBytes (l.getD k 0)).getD r 0 := by
  induction l with
  | nil => intro k r hk hr; simp at hk
  | cons x xs ih =>
    intro k r hk hr
    cases k with
    | zero =>
      simp only [List.map_cons, List.flatten_cons, Nat.mul_zero, Nat.zero_add]
      rw [List.getD_append _ _ _ _ (by rw [sampleBytes_length]; omega)]
      rfl
    | succ k =>
      simp only [List.map_cons, List.flatten_cons]
      rw [List.getD_append_right _ _ _ _ (by rw [sampleBytes_length]; omega)]
      have hidx : 2 * (k + 1) + r - (sampleBytes x).length = 2 * k + r := by
        rw [sampleBytes_length]; omega
      rw [hidx, List.getD_cons_succ]
      exact ih k r (by simpa using hk) hr

lemma interleaved_getD (buf : AudioBufferModel) (k : ℕ)
    (hk : k < buf.length * buf.numberOfChannels) :
    (interleaved buf).getD k 0 =
      buf.channelData (k % buf.numberOfChannels) (k / buf.numberOfChannels) := by
  unfold interleaved
  rw [List.getD_eq_getElem _ _ (by simpa using hk)]
  simp

lemma interleave_index (i ch n c : ℕ) (hch : ch < c) (hi : i < n) :
    i * c + ch < n * c ∧ (i * c + ch) % c = ch ∧ (i * c + ch) / c = i := by
  refine ⟨?_, ?_, ?_⟩
  · calc i * c + ch < i * c + c := by omega
      _ = (i + 1) * c := by ring
      _ ≤ n * c := Nat.mul_le_mul_right c (by omega)
  · rw [show i * c + ch = c * i + ch by ring, Nat.mul_add_mod, Nat.mod_eq_of_lt hch]
  · rw [show i * c + ch = c * i + ch by ring, Nat.mul_add_div (by omega),
      Nat.div_eq_of_lt hch]
    omega

/-- C4: round-trip. For a sample buffer whose samples lie in [-1,1], encoding
with `audioBufferToWavBlob` and decoding the bytes back (interleaved
little-endian int16 at offset 44+2k, divided by 32768 when negative and by
32767 otherwise) recovers each sample within 16-bit quantization error:
`|decoded - original| ≤ 1/32767`. -/
theorem wav_roundtrip_quantization (buf : AudioBufferModel) (ch i : ℕ)
    (hch : ch < buf.numberOfChannels) (hi : i < buf.length)
    (h1 : -1 ≤ buf.channelData ch i) (h2 : buf.channelData ch i ≤ 1) :
    |decodeSampleAt (wavBytes buf) (i * buf.numberOfChannels + ch) -
        buf.channelData ch i| ≤ 1 / 32767 := by
  have hidx := interleave_index i ch buf.length buf.numberOfChannels hch hi
  have hbytes : ∀ r : ℕ, r < 2 →
      (wavBytes buf).getD (44 + 2 * (i * buf.numberOfChannels + ch) + r) 0 =
        (sampleBytes (buf.channelData ch i)).getD r 0 := by
    intro r hr
    rw [wavBytes, List.getD_append_right _ _ _ _ (by rw [wavHeader_length]; omega)]
    have hsub : 44 + 2 * (i * buf.numberOfChannels + ch) + r - (wavHeader buf).length =
        2 * (i * buf.numberOfChannels + ch) + r := by
      rw [wavHeader_length]; omega
    rw [hsub, pcm_getD _ _ _ (by rw [interleaved_length]; exact hidx.1) hr,
      interleaved_getD _ _ hidx.1, hidx.2.1, hidx.2.2]
  have hread : readU16At (wavBytes buf) (44 + 2 * (i * buf.numberOfChannels + ch)) =
      readU16At (sampleBytes (buf.channelData ch i)) 0 := by
    unfold readU16At
    have hb0 := hbytes 0 (by omega)
    have hb1 := hbytes 1 (by omega)
    rw [Nat.add_zero] at hb0
    rw [hb0, hb1]
  have henc : signed16 (readU16At (sampleBytes (buf.channelData ch i)) 0) =
      ratTrunc (scaled16 (buf.channelData ch i)) := by
    rw [sampleBytes, clamp1_eq_self h1 h2]
    exact signed16_readU16_i16le _ (trunc_scaled_range _ h1 h2).1
      (trunc_scaled_range _ h1 h2).2
  simp only [decodeSampleAt]
  rw [hread, henc]
  exact decode_val_close (buf.channelData ch i) h1 h2

/-- Witness for C4: a 1-channel buffer holding the sample 1/2 decodes back
within 1/32767 of 1/2. -/
theorem wav_roundtrip_quantization_witness :
    |decodeSampleAt (wavBytes ⟨1, 8, 2, fun _ _ => (1 : ℚ) / 2⟩) 0 - 1 / 2| ≤ 1 / 32767 := by
  have h := wav_roundtrip_quantization ⟨1, 8, 2, fun _ _ => (1 : ℚ) / 2⟩ 0 0
    (by norm_num) (by norm_num) (by norm_num) (by norm_num)
  simpa using h

/-- C5 counterexample: at duration d = 2 the breakpoints t=1s and t=d-1s
coincide, so no gain function can be both 0.8 and 0.6 there; the scheduled
envelope evaluates to 0.8 at t=1=d-1, refuting "exactly 0.6 at t=d-1s". -/
theorem envelope_counterexample_at_two :
    masterGainEnvelope 2 (2 - 1) = 4 / 5 ∧ masterGainEnvelope 2 (2 - 1) ≠ 3 / 5 := by
  have h : masterGainEnvelope 2 (2 - 1) = 4 / 5 := by
    rw [masterGainEnvelope, if_neg (by norm_num), if_pos (by norm_num)]
    norm_num
  exact ⟨h, by rw [h]; norm_num⟩

/-- C5 (amended): for every render duration d > 2 seconds, the master gain
envelope is exactly 0 at t=0, 0.8 at t=1, 0.6 at t=d-1 and 0 at t=d, with
linear interpolation on each of the three segments between breakpoints. -/
theorem envelope_breakpoints_and_interpolation (d : ℚ) (hd : 2 < d) :
    masterGainEnvelope d 0 = 0 ∧ masterGainEnvelope d 1 = 4 / 5 ∧
      masterGainEnvelope d (d - 1) = 3 / 5 ∧ masterGainEnvelope d d = 0 ∧
      (∀ t, 0 ≤ t → t ≤ 1 → masterGainEnvelope d t = 4 / 5 * t) ∧
      (∀ t, 1 ≤ t → t ≤ d - 1 →
        masterGainEnvelope d t = 4 / 5 - 1 / 5 * (t - 1) / (d - 2)) ∧
      (∀ t, d - 1 ≤ t → t ≤ d → masterGainEnvelope d t = 3 / 5 * (d - t)) := by
  have hne : d - 2 ≠ 0 := ne_of_gt (by linarith)
  have hden : d - 1 - 1 = d - 2 := by ring
  refine ⟨?_, ?_, ?_, ?_, ?_, ?_, ?_⟩
  · rw [masterGainEnvelope, if_pos le_rfl]
  · rw [masterGainEnvelope, if_neg (by norm_num), if_pos le_rfl]
    norm_num
  · rw [masterGainEnvelope, if_neg (by linarith), if_neg (by linarith), if_pos le_rfl,
      hden]
    field_simp
    ring
  · rw [masterGainEnvelope, if_neg (by linarith), if_neg (by linarith),
      if_neg (by linarith), if_pos le_rfl]
    ring
  · intro t h0 h1
    rcases eq_or_lt_of_le h0 with h | h
    · rw [masterGainEnvelope, if_pos (le_of_eq h.symm)]
      rw [← h]
      ring
    · rw [masterGainEnvelope, if_neg (by linarith), if_pos h1]
  · intro t h1 hd1
    rcases eq_or_lt_of_le h1 with h | h
    · rw [masterGainEnvelope, if_neg (by linarith), if_pos (le_of_eq h.symm), ← h]
      norm_num
    · rw [masterGainEnvelope, if_neg (by linarith), if_neg (by linarith), if_pos hd1,
        hden]
      field_simp
      ring
  · intro t hdm1 hdt
    rcases eq_or_lt_of_le hdm1 with h | h
    · rw [masterGainEnvelope, if_neg (by linarith), if_neg (by linarith),
        if_pos (le_of_eq h.symm), ← h, hden]
      field_simp
      ring
    · rw [masterGainEnvelope, if_neg (by linarith), if_neg (by linarith),
        if_neg (by linarith), if_pos hdt]
      field_simp
      ring

/-- Witness for C5 (amended) at d = 4: the envelope takes the four breakpoint
values and the first segment interpolates linearly (value 2/5 at t=1/2). -/
theorem envelope_breakpoints_witness :
    masterGainEnvelope 4 0 = 0 ∧ masterGainEnvelope 4 1 = 4 / 5 ∧
      masterGainEnvelope 4 3 = 3 / 5 ∧ masterGainEnvelope 4 4 = 0 ∧
      masterGainEnvelope 4 (1 / 2) = 2 / 5 := by
  have h := envelope_breakpoints_and_interpolation 4 (by norm_num)
  refine ⟨h.1, h.2.1, ?_, ?_, ?_⟩
  · have := h.2.2.1
    norm_num at this
    exact this
  · exact h.2.2.2.1
  · have := h.2.2.2.2.1 (1 / 2) (by norm_num) (by norm_num)
    rw [this]
    norm_num

/-- C7 counterexample: for a 3-second decoded audio blob the stop timer is
scheduled at `Math.ceil(3 * 1000) + 100 = 3100` ms after capture start, not
at 3 s + 50 ms lead + 100 ms margin = 3150 ms. -/
theorem merge_stop_timer_counterexample :
    stopTimerDelayMs 3 = 3100 ∧
      (3 : ℚ) * 1000 + (audioStartLeadMs : ℚ) + 100 = 3150 ∧
      (stopTimerDelayMs 3 : ℚ) ≠ 3 * 1000 + (audioStartLeadMs : ℚ) + 100 := by
  have h : stopTimerDelayMs 3 = 3100 := by
    rw [stopTimerDelayMs, show ((3 : ℚ) * 1000) = ((3000 : ℤ) : ℚ) by norm_num,
      Int.ceil_intCast]
    norm_num
  refine ⟨h, by rw [audioStartLeadMs]; norm_num, by rw [h, audioStartLeadMs]; norm_num⟩

/-- C7 (amended): the stop timer fires `ceil(d*1000) + 100` ms after capture
start — the decoded duration plus only the 100 ms trailing margin, without
the 50 ms audio-start lead; since the audio starts at the 50 ms lead and ends
at `50 + d*1000` ms, the stop fires between 50 ms (inclusive) and 51 ms
(exclusive) after the audio ends. -/
theorem merge_stop_timer_margin (d : ℚ) :
    (audioStartLeadMs : ℚ) + d * 1000 + 50 ≤ (stopTimerDelayMs d : ℚ) ∧
      (stopTimerDelayMs d : ℚ) < (audioStartLeadMs : ℚ) + d * 1000 + 51 := by
  have h1 : d * 1000 ≤ (⌈d * 1000⌉ : ℚ) := Int.le_ceil _
  have h2 : (⌈d * 1000⌉ : ℚ) < d * 1000 + 1 := Int.ceil_lt_add_one _
  rw [stopTimerDelayMs, audioStartLeadMs]
  constructor <;> push_cast <;> linarith

/-- C8: calling the merge operation without a previously generated audio blob
fails immediately with the precondition failure, and starts no audio context,
no capture stream and no recorder. -/
theorem merge_without_audio_precondition :
    mergeAndPreview none =
      (Except.error MergeFailure.preconditionFailure, ⟨0, 0, 0⟩) ∧
      (mergeAndPreview none).2.audioContexts = 0 ∧
      (mergeAndPreview none).2.captureStreams = 0 ∧
      (mergeAndPreview none).2.recorders = 0 := by
  exact ⟨rfl, rfl, rfl, rfl⟩

lemma wrap_foldl_invariant (measure : List Char → ℚ) (maxWidth : ℚ)
    (W : List (List Char)) :
    ∀ (ws : List (List Char)) (lines : List (List Char)) (current : List Char),
      (∀ w ∈ ws, w ∈ W) →
      (∀ l ∈ lines, l ≠ [] ∧ (measure l ≤ maxWidth ∨ l ∈ W)) →
      (current = [] ∨ measure current ≤ maxWidth ∨ current ∈ W) →
      (∀ l ∈ (ws.foldl (wrapStep measure maxWidth) (lines, current)).1,
          l ≠ [] ∧ (measure l ≤ maxWidth ∨ l ∈ W)) ∧
        ((ws.foldl (wrapStep measure maxWidth) (lines, current)).2 = [] ∨
          measure (ws.foldl (wrapStep measure maxWidth) (lines, current)).2 ≤ maxWidth ∨
          (ws.foldl (wrapStep measure maxWidth) (lines, current)).2 ∈ W) := by
  intro ws
  induction ws with
  | nil => intro lines current hw hl hc; exact ⟨hl, hc⟩
  | cons w ws ih =>
    intro lines current hw hl hc
    rw [List.foldl_cons]
    by_cases hcond :
        measure (if current = [] then w else current ++ ' ' :: w) > maxWidth ∧
          current ≠ []
    · have hstep : wrapStep measure maxWidth (lines, current) w =
          (lines ++ [current], w) := by
        simp only [wrapStep]
        rw [if_pos hcond]
      rw [hstep]
      apply ih
      · intro x hx
        exact hw x (List.mem_cons_of_mem _ hx)
      · intro l hlmem
        rcases List.mem_append.mp hlmem with h | h
        · exact hl l h
        · rw [List.mem_singleton] at h
          subst h
          refine ⟨hcond.2, ?_⟩
          rcases hc with h0 | h
          · exact absurd h0 hcond.2
          · exact h
      · exact Or.inr (Or.inr (hw w (List.mem_cons_self w ws)))
    · have hstep : wrapStep measure maxWidth (lines, current) w =
          (lines, if current = [] then w else current ++ ' ' :: w) := by
        simp only [wrapStep]
        rw [if_neg hcond]
      rw [hstep]
      apply ih
      · intro x hx
        exact hw x (List.mem_cons_of_mem _ hx)
      · exact hl
      · by_cases hcur : current = []
        · rw [if_pos hcur]
          exact Or.inr (Or.inr (hw w (List.mem_cons_self w ws)))
        · rw [if_neg hcur]
          rw [if_neg hcur] at hcond
          exact Or.inr (Or.inl (le_of_not_lt fun hgt => hcond ⟨hgt, hcur⟩))

lemma wrapText_mem (measure : List Char → ℚ) (maxWidth : ℚ) (text : List Char) :
    ∀ l ∈ wrapText measure text maxWidth,
      l ≠ [] ∧ (measure l ≤ maxWidth ∨ l ∈ splitSpace text) := by
  intro l hl
  have hinv := wrap_foldl_invariant measure maxWidth (splitSpace text)
    (splitSpace text) [] [] (fun w hw => hw) (by intro x hx; simp at hx)
    (Or.inl rfl)
  simp only [wrapText] at hl
  have hmem := List.mem_of_mem_take hl
  split_ifs at hmem with hpush
  · rcases List.mem_append.mp hmem with h | h
    · exact hinv.1 l h
    · rw [List.mem_singleton] at h
      subst h
      refine ⟨hpush, ?_⟩
      rcases hinv.2 with h0 | h
      · exact absurd h0 hpush
      · exact h
  · exact hinv.1 l hmem

/-- C9: for every input text, text measure and max width, the word-wrap
routine returns at most 4 lines, and every returned line either measures at
most the max width or is a single word of the input (which then occupies its
own line unsplit); in particular this holds for the spec's example text at
any narrow width. -/
theorem wrap_line_cap_and_widths (measure : List Char → ℚ) (maxWidth : ℚ)
    (text : List Char) :
    (wrapText measure text maxWidth).length ≤ 4 ∧
      ∀ l ∈ wrapText measure text maxWidth,
        measure l ≤ maxWidth ∨ l ∈ splitSpace text := by
  constructor
  · simp only [wrapText]
    rw [List.length_take]
    omega
  · intro l hl
    exact (wrapText_mem measure maxWidth text l hl).2

/-- C10: the word-wrap routine never emits an empty line, and on the empty
input text it returns the empty list, so an empty prompt renders zero text
lines. -/
theorem wrap_lines_nonempty_and_empty_input (measure : List Char → ℚ)
    (maxWidth : ℚ) :
    (∀ text : List Char, ∀ l ∈ wrapText measure text maxWidth, l ≠ []) ∧
      wrapText measure [] maxWidth = [] := by
  constructor
  · intro text l hl
    exact (wrapText_mem measure maxWidth text l hl).1
  · simp [wrapText, splitSpace, wrapStep]

/-- Witness for C9 at the spec's example: wrapping the prompt
"A dark biomechanical lord awakens amidst thunder" at a narrow width
(10 character widths under a character-count measure) yields at most 4
lines. -/
theorem wrap_line_cap_witness :
    (wrapText (fun w => (w.length : ℚ))
      "A dark biomechanical lord awakens amidst thunder".toList 10).length ≤ 4 :=
  (wrap_line_cap_and_widths (fun w => (w.length : ℚ))
    10 "A dark biomechanical lord awakens amidst thunder".toList).1

/-- Witness for C10: wrapping the empty text yields the empty line list. -/
theorem wrap_empty_input_witness :
    wrapText (fun w => (w.length : ℚ)) [] 10 = [] :=
  (wrap_lines_nonempty_and_empty_input (fun w => (w.length : ℚ)) 10).2
